import Mathlib

/-!
Shallow embedding of the space-reclamation core of cleanup.py
(jbretsch/pvrutils): the File record, the set-based directory scan,
the stable sort by modification time, the delete-oldest reclamation
loop driven by the statvfs free-space oracle, and the directory
validation. Filesystem facts (which paths are regular files, their
modification times, the directory walk, device ids, free space) are
passed in as explicit parameters, since the Python code obtains them
from OS calls; everything the Python code computes itself is
translated directly.
-/

namespace Cleanup

/-- File class of cleanup.py: a path and a modification time
(seconds since the epoch). -/
structure File where
  path : String
  mtime : Int
deriving DecidableEq, Repr

/-- File.__key: identity is the path alone. -/
def File.key (f : File) : String := f.path

/-- File.__eq__: two File objects are equal iff their keys (paths) agree;
the modification time is ignored. -/
def fileEq (x y : File) : Bool := x.key == y.key

/-- File.__hash__: hash of the key (the path). -/
def fileHash (f : File) : UInt64 := hash f.key

/-- Python set.add with File's path-keyed equality: when an equal element
(same path) is already present the set is unchanged and the existing
element (with its originally recorded mtime) is retained; otherwise the
new element joins the set. The list records insertion (discovery)
order, which fixes the set's contents; the set's iteration order is a
separate permutation of it (see find_files_sorted_by_mtime). -/
def setAdd (s : List File) (f : File) : List File :=
  if s.any fun g => fileEq g f then s else s ++ [f]

/-- os.path.join as used by process_dir (dirname joined with a plain
basename produced by the walk). -/
def joinPath (dirname filename : String) : String :=
  dirname ++ "/" ++ filename

/-- process_dir of cleanup.py: for each name in the directory listing,
build the full path, keep it only if it is a regular file, and add a
File with its modification time to the accumulated set. The isfile and
getmtime oracles stand for os.path.isfile and os.path.getmtime. -/
def process_dir (isfile : String → Bool) (getmtime : String → Int)
    (all_files : List File) (dirname : String) (filenames : List String) :
    List File :=
  List.foldl
    (fun acc filename =>
      let fullpath := joinPath dirname filename
      if isfile fullpath then
        setAdd acc (File.mk fullpath (getmtime fullpath))
      else acc)
    all_files filenames

/-- The scanning phase of find_files_sorted_by_mtime: os.path.walk is
modelled by the walk oracle giving, for each starting directory, the
sequence of (dirname, filenames) callbacks it performs; process_dir
accumulates every regular file into the set. The result lists the
set's contents in discovery order. -/
def scanFiles (walk : String → List (String × List String))
    (isfile : String → Bool) (getmtime : String → Int)
    (directories : List String) : List File :=
  List.foldl
    (fun files d =>
      List.foldl (fun acc c => process_dir isfile getmtime acc c.1 c.2)
        files (walk d))
    [] directories

/-- Comparison key of the final sort in find_files_sorted_by_mtime:
order File records by modification time. -/
def mtimeLE (a b : File) : Prop := a.mtime ≤ b.mtime

instance : DecidableRel mtimeLE := fun a b =>
  inferInstanceAs (Decidable (a.mtime ≤ b.mtime))

instance : IsTotal File mtimeLE :=
  ⟨fun a b => Int.le_total a.mtime b.mtime⟩

instance : IsTrans File mtimeLE :=
  ⟨fun _ _ _ hab hbc => Int.le_trans hab hbc⟩

/-- The sort of find_files_sorted_by_mtime: sorted(files, key=mtime).
Python's sorted is a stable sort; it consumes the set in the set's
iteration order, which for a hash set is unspecified (hash-bucket
order) — callers supply that order as iter, an arbitrary permutation
of the scanned contents. Embedded as a stable insertion sort. -/
def find_files_sorted_by_mtime (iter : List File) : List File :=
  List.insertionSort mtimeLE iter

/-- The statvfs oracle of avail_space_in_mb: availStart is the free
space (in MB) reported before any deletion — a nonnegative quantity —
and sizeMB gives the space freed by deleting the file at a path. -/
structure Env where
  availStart : Nat
  sizeMB : String → Nat

/-- Space freed (MB) by deleting the given files. -/
def totalMB (e : Env) (l : List File) : Nat :=
  (l.map fun f => e.sizeMB f.path).sum

/-- Free space reported by avail_space_in_mb after the given files have
been deleted. -/
def availAfter (e : Env) (deleted : List File) : Nat :=
  e.availStart + totalMB e deleted

/-- The while loop of cleanup: while avail_space_in_mb < min_avail_space
and files remain, pop the oldest file and remove it. Returns the files
deleted (in deletion order) and the files still remaining. -/
def cleanupLoop (e : Env) (thr : Int) :
    List File → List File → List File × List File
  | deleted, [] => (deleted, [])
  | deleted, f :: rest =>
    if (availAfter e deleted : Int) < thr then
      cleanupLoop e thr (deleted ++ [f]) rest
    else (deleted, f :: rest)

/-- Final outcome of one cleanup run, per the specification's
Outcome enumeration. -/
inductive Outcome
  | AlreadySatisfied
  | Reclaimed
  | ExhaustedInsufficient
deriving DecidableEq, Repr

/-- cleanup of cleanup.py: if enough space is already available, report
and return at once (the scanner is never consulted); otherwise sort
the scanned files by mtime and delete oldest-first until the threshold
is met or no file remains, then report. iter is the iteration order of
the scanned set (see find_files_sorted_by_mtime). Returns the deleted
files in deletion order together with the outcome. -/
def cleanup (e : Env) (thr : Int) (iter : List File) : List File × Outcome :=
  if thr ≤ (e.availStart : Int) then ([], Outcome.AlreadySatisfied)
  else
    let all_files := find_files_sorted_by_mtime iter
    let res := cleanupLoop e thr [] all_files
    if (availAfter e res.1 : Int) < thr ∧ res.2 = [] then
      (res.1, Outcome.ExhaustedInsufficient)
    else (res.1, Outcome.Reclaimed)

/-- Effect of a finished run on the filesystem oracle: the deleted
files' space has been freed. -/
def applyDeletions (e : Env) (deleted : List File) : Env :=
  ⟨availAfter e deleted, e.sizeMB⟩

/-- One whole run: the cleanup result together with the filesystem
oracle it leaves behind. -/
def runCleanup (e : Env) (thr : Int) (iter : List File) :
    Env × List File × Outcome :=
  let r := cleanup e thr iter
  (applyDeletions e r.1, r.1, r.2)

/-- The while loop of cleanup with a fallible os.remove: delOk tells
whether removing the path succeeds; a failing removal raises, so the
loop stops at once, carrying the files already deleted and the file
whose removal failed. -/
def cleanupLoopE (e : Env) (delOk : String → Bool) (thr : Int) :
    List File → List File → Except (List File × File) (List File × List File)
  | deleted, [] => Except.ok (deleted, [])
  | deleted, f :: rest =>
    if (availAfter e deleted : Int) < thr then
      if delOk f.path then cleanupLoopE e delOk thr (deleted ++ [f]) rest
      else Except.error (deleted, f)
    else Except.ok (deleted, f :: rest)

/-- cleanup with the fallible os.remove: an uncaught removal failure
aborts the run before the final report; a normal run returns the
deleted files and the outcome. -/
def cleanupE (e : Env) (delOk : String → Bool) (thr : Int)
    (iter : List File) : Except (List File × File) (List File × Outcome) :=
  if thr ≤ (e.availStart : Int) then Except.ok ([], Outcome.AlreadySatisfied)
  else
    match cleanupLoopE e delOk thr [] (find_files_sorted_by_mtime iter) with
    | Except.error r => Except.error r
    | Except.ok (deleted, remaining) =>
      if (availAfter e deleted : Int) < thr ∧ remaining = [] then
        Except.ok (deleted, Outcome.ExhaustedInsufficient)
      else Except.ok (deleted, Outcome.Reclaimed)

/-- Filesystem facts consulted by check_directories: os.path.exists,
os.path.isdir and the st_dev field of os.stat. -/
structure DirFS where
  pathExists : String → Bool
  isdir : String → Bool
  st_dev : String → Nat

/-- The second loop of check_directories: walk the surviving directories
carrying prev_device, and abort on the first directory whose device
differs from the previous one's. -/
def sameDeviceLoop (fs : DirFS) : Option Nat → List String → Bool
  | _, [] => true
  | prev_device, d :: ds =>
    let current_device := fs.st_dev d
    match prev_device with
    | some p =>
      if current_device ≠ p then false
      else sameDeviceLoop fs (some current_device) ds
    | none => sameDeviceLoop fs (some current_device) ds

/-- check_directories of cleanup.py: drop paths that do not exist or are
not directories, abort when none survive, then abort when two surviving
directories are on different devices; on success return the surviving
directories in input order. A pure function of the filesystem facts:
it deletes nothing. -/
def check_directories (fs : DirFS) (directories : List String) :
    Bool × List String :=
  let ok_dirs := directories.filter fun d => fs.pathExists d && fs.isdir d
  if ok_dirs.length = 0 then (false, [])
  else if sameDeviceLoop fs none ok_dirs then (true, ok_dirs)
  else (false, [])

/-- The deletion loop only rearranges the inventory: the deleted files
followed by the remaining files are exactly the files it started from. -/
theorem cleanupLoop_append (e : Env) (thr : Int) (files : List File) :
    ∀ deleted,
      (cleanupLoop e thr deleted files).1 ++ (cleanupLoop e thr deleted files).2
        = deleted ++ files := by
  induction files with
  | nil => intro deleted; simp [cleanupLoop]
  | cons f rest ih =>
    intro deleted
    by_cases hc : (availAfter e deleted : Int) < thr
    · simp only [cleanupLoop, if_pos hc]
      rw [ih (deleted ++ [f])]
      simp
    · simp only [cleanupLoop, if_neg hc]

/-- When the deletion loop stops with files left over, the free-space
threshold has been reached. -/
theorem cleanupLoop_exit (e : Env) (thr : Int) (files : List File) :
    ∀ deleted, (cleanupLoop e thr deleted files).2 ≠ [] →
      thr ≤ (availAfter e (cleanupLoop e thr deleted files).1 : Int) := by
  induction files with
  | nil => intro deleted h; simp [cleanupLoop] at h
  | cons f rest ih =>
    intro deleted h
    by_cases hc : (availAfter e deleted : Int) < thr
    · simp only [cleanupLoop, if_pos hc] at h ⊢
      exact ih _ h
    · simp only [cleanupLoop, if_neg hc]
      exact le_of_not_lt hc

/-- Below the fast path, cleanup is the deletion loop followed by the
final report. -/
theorem cleanup_eq_loop (e : Env) (thr : Int) (iter : List File)
    (h : ¬ thr ≤ (e.availStart : Int)) :
    cleanup e thr iter =
      (if (availAfter e (cleanupLoop e thr []
            (find_files_sorted_by_mtime iter)).1 : Int) < thr ∧
          (cleanupLoop e thr [] (find_files_sorted_by_mtime iter)).2 = [] then
        ((cleanupLoop e thr [] (find_files_sorted_by_mtime iter)).1,
          Outcome.ExhaustedInsufficient)
      else ((cleanupLoop e thr [] (find_files_sorted_by_mtime iter)).1,
          Outcome.Reclaimed)) := by
  rw [cleanup, if_neg h]

/-- The sorted inventory frees the same space as the scanned set. -/
theorem totalMB_sorted (e : Env) (iter : List File) :
    totalMB e (find_files_sorted_by_mtime iter) = totalMB e iter := by
  unfold totalMB
  exact ((List.perm_insertionSort mtimeLE iter).map _).sum_eq

/-- C1: for every validated run whose initial available space is below
the threshold, if the total size of the scanned files is at least the
space deficit (deleting them all would reach the threshold), then
cleanup ends with outcome Reclaimed and the final available free space
is at least the threshold. -/
theorem cleanup_reclaims_when_enough (e : Env) (thr : Int) (iter : List File)
    (h0 : (e.availStart : Int) < thr)
    (h1 : thr ≤ ((e.availStart + totalMB e iter : Nat) : Int)) :
    (cleanup e thr iter).2 = Outcome.Reclaimed ∧
    thr ≤ (availAfter e (cleanup e thr iter).1 : Int) := by
  have hfast : ¬ thr ≤ (e.availStart : Int) := not_le.mpr h0
  rw [cleanup_eq_loop e thr iter hfast]
  set s := find_files_sorted_by_mtime iter with hs
  set res := cleanupLoop e thr [] s with hres
  have hkey : thr ≤ (availAfter e res.1 : Int) := by
    rcases hrem : res.2 with _ | ⟨g, gs⟩
    · have hcat := cleanupLoop_append e thr s []
      rw [← hres, hrem, List.append_nil, List.nil_append] at hcat
      rw [hcat]
      show thr ≤ ((e.availStart + totalMB e s : Nat) : Int)
      rw [totalMB_sorted e iter]
      exact h1
    · have := cleanupLoop_exit e thr s []
      rw [← hres] at this
      exact this (by rw [hrem]; simp)
  rw [if_neg]
  · exact ⟨rfl, hkey⟩
  · intro hcon
    exact absurd hkey (not_le.mpr hcon.1)

/-- C1 witness: a concrete run (8 MB free, threshold 10 MB, two 4 MB
files) reclaims space successfully. -/
theorem cleanup_reclaims_when_enough_witness :
    (cleanup ⟨8, fun _ => 4⟩ 10
        [File.mk "a" 1, File.mk "b" 2]).2 = Outcome.Reclaimed ∧
    (10 : Int) ≤ (availAfter ⟨8, fun _ => 4⟩
        (cleanup ⟨8, fun _ => 4⟩ 10 [File.mk "a" 1, File.mk "b" 2]).1 : Int) :=
  cleanup_reclaims_when_enough ⟨8, fun _ => 4⟩ 10
    [File.mk "a" 1, File.mk "b" 2] (by decide) (by decide)

/-- C2: for every validated run whose initial available space is below
the threshold, if the total size of the scanned files is less than the
space deficit, then cleanup ends with outcome ExhaustedInsufficient,
every scanned file has been deleted (the whole sorted inventory), and
the final available free space is still below the threshold. -/
theorem cleanup_exhausts_when_insufficient (e : Env) (thr : Int)
    (iter : List File)
    (h0 : (e.availStart : Int) < thr)
    (h1 : ((e.availStart + totalMB e iter : Nat) : Int) < thr) :
    (cleanup e thr iter).2 = Outcome.ExhaustedInsufficient ∧
    (cleanup e thr iter).1 = find_files_sorted_by_mtime iter ∧
    (availAfter e (cleanup e thr iter).1 : Int) < thr := by
  have hfast : ¬ thr ≤ (e.availStart : Int) := not_le.mpr h0
  rw [cleanup_eq_loop e thr iter hfast]
  set s := find_files_sorted_by_mtime iter with hs
  set res := cleanupLoop e thr [] s with hres
  have hcat := cleanupLoop_append e thr s []
  rw [← hres, List.nil_append] at hcat
  have hbound : (availAfter e res.1 : Int) < thr := by
    have hsplit : totalMB e res.1 + totalMB e res.2 = totalMB e s := by
      rw [← hcat]
      simp [totalMB]
    have hle : totalMB e res.1 ≤ totalMB e s := by omega
    have : (availAfter e res.1 : Int) ≤ ((e.availStart + totalMB e s : Nat) : Int) := by
      show ((e.availStart + totalMB e res.1 : Nat) : Int) ≤ _
      exact_mod_cast Nat.add_le_add_left hle e.availStart
    calc (availAfter e res.1 : Int)
        ≤ ((e.availStart + totalMB e s : Nat) : Int) := this
      _ = ((e.availStart + totalMB e iter : Nat) : Int) := by
          rw [totalMB_sorted e iter]
      _ < thr := h1
  have hrem : res.2 = [] := by
    by_contra hne
    have := cleanupLoop_exit e thr s []
    rw [← hres] at this
    exact absurd (this hne) (not_le.mpr hbound)
  have hall : res.1 = s := by
    rw [hrem, List.append_nil] at hcat
    exact hcat
  rw [if_pos ⟨hbound, hrem⟩]
  exact ⟨rfl, hall, hbound⟩

/-- C2 witness: a concrete run (0 MB free, threshold 10 MB, two 4 MB
files) deletes everything and still falls short. -/
theorem cleanup_exhausts_when_insufficient_witness :
    (cleanup ⟨0, fun _ => 4⟩ 10
        [File.mk "a" 1, File.mk "b" 2]).2 = Outcome.ExhaustedInsufficient ∧
    (cleanup ⟨0, fun _ => 4⟩ 10 [File.mk "a" 1, File.mk "b" 2]).1
      = find_files_sorted_by_mtime [File.mk "a" 1, File.mk "b" 2] ∧
    (availAfter ⟨0, fun _ => 4⟩
        (cleanup ⟨0, fun _ => 4⟩ 10 [File.mk "a" 1, File.mk "b" 2]).1 : Int)
      < 10 :=
  cleanup_exhausts_when_insufficient ⟨0, fun _ => 4⟩ 10
    [File.mk "a" 1, File.mk "b" 2] (by decide) (by decide)

/-- In every run the deleted files form a prefix-shaped sublist of the
sorted inventory. -/
theorem cleanup_deleted_sublist (e : Env) (thr : Int) (iter : List File)
    (h : ¬ thr ≤ (e.availStart : Int)) :
    List.Sublist (cleanup e thr iter).1 (find_files_sorted_by_mtime iter) := by
  rw [cleanup_eq_loop e thr iter h]
  have hcat := cleanupLoop_append e thr (find_files_sorted_by_mtime iter) []
  rw [List.nil_append] at hcat
  have hsl : List.Sublist
      (cleanupLoop e thr [] (find_files_sorted_by_mtime iter)).1
      (find_files_sorted_by_mtime iter) := by
    conv_rhs => rw [← hcat]
    exact List.sublist_append_left _ _
  split
  · exact hsl
  · exact hsl

/-- C3: in every run of the reclamation loop, files are deleted in
non-decreasing order of modification time: whenever A is deleted
before B, A's modification time is at most B's. -/
theorem cleanup_deletes_oldest_first (e : Env) (thr : Int)
    (iter : List File) :
    ((cleanup e thr iter).1).Pairwise (fun a b => a.mtime ≤ b.mtime) := by
  by_cases hfast : thr ≤ (e.availStart : Int)
  · simp [cleanup, if_pos hfast]
  · have hsorted : (find_files_sorted_by_mtime iter).Pairwise mtimeLE :=
      List.sorted_insertionSort mtimeLE iter
    exact hsorted.sublist (cleanup_deleted_sublist e thr iter hfast)

/-- C6: the reclamation loop terminates after at most one deletion per
inventory entry: the loop conserves entries (deleted plus remaining is
the starting inventory, each iteration moving exactly one file), so a
whole run deletes at most as many files as were scanned. -/
theorem cleanup_terminates_within_inventory (e : Env) (thr : Int)
    (deleted files iter : List File) :
    ((cleanupLoop e thr deleted files).1.length
        + (cleanupLoop e thr deleted files).2.length
      = deleted.length + files.length) ∧
    (cleanup e thr iter).1.length ≤ iter.length := by
  constructor
  · have hcat := cleanupLoop_append e thr files deleted
    have := congrArg List.length hcat
    simpa using this
  · by_cases hfast : thr ≤ (e.availStart : Int)
    · simp [cleanup, if_pos hfast]
    · have hsl := cleanup_deleted_sublist e thr iter hfast
      calc (cleanup e thr iter).1.length
          ≤ (find_files_sorted_by_mtime iter).length := hsl.length_le
        _ = iter.length := (List.perm_insertionSort mtimeLE iter).length_eq

/-- C4: whenever the available free space at start already meets the
threshold (in particular for every zero or negative threshold, the
measured free space being a nonnegative quantity), a run returns
AlreadySatisfied, deletes no file, leaves the filesystem oracle
unchanged, and its result does not depend on the scanned inventory
(the scanner contributes nothing); running a second run right after,
over any inventory, is again the same no-op. -/
theorem cleanup_already_satisfied_noop (e : Env) (thr : Int)
    (iter iter' : List File) (h : thr ≤ (e.availStart : Int)) :
    runCleanup e thr iter = (e, [], Outcome.AlreadySatisfied) ∧
    runCleanup e thr iter = runCleanup e thr iter' ∧
    runCleanup (runCleanup e thr iter).1 thr iter'
      = (e, [], Outcome.AlreadySatisfied) := by
  have h1 : cleanup e thr iter = ([], Outcome.AlreadySatisfied) := by
    rw [cleanup, if_pos h]
  have henv : applyDeletions e [] = e := by
    simp [applyDeletions, availAfter, totalMB]
  have hrun : runCleanup e thr iter = (e, [], Outcome.AlreadySatisfied) := by
    rw [runCleanup, h1]
    simpa using henv
  refine ⟨hrun, ?_, ?_⟩
  · rw [hrun, runCleanup, cleanup, if_pos h]
    simpa using henv.symm
  · rw [hrun, runCleanup, cleanup, if_pos h]
    simpa using henv

/-- C4 witness: with 7 MB free and a threshold of -5 MB (no cleanup ever
needed), two successive runs over different inventories are both
no-ops. -/
theorem cleanup_already_satisfied_noop_witness :
    runCleanup ⟨7, fun _ => 4⟩ (-5) [File.mk "a" 1]
      = (⟨7, fun _ => 4⟩, [], Outcome.AlreadySatisfied) ∧
    runCleanup ⟨7, fun _ => 4⟩ (-5) [File.mk "a" 1]
      = runCleanup ⟨7, fun _ => 4⟩ (-5) [File.mk "b" 2] ∧
    runCleanup (runCleanup ⟨7, fun _ => 4⟩ (-5) [File.mk "a" 1]).1 (-5)
        [File.mk "b" 2]
      = (⟨7, fun _ => 4⟩, [], Outcome.AlreadySatisfied) :=
  cleanup_already_satisfied_noop ⟨7, fun _ => 4⟩ (-5)
    [File.mk "a" 1] [File.mk "b" 2] (by decide)

/-- Started with a previous device, the device loop accepts exactly the
lists whose every member lives on that device. -/
theorem sameDeviceLoop_some (fs : DirFS) (l : List String) :
    ∀ p, sameDeviceLoop fs (some p) l = true ↔
      ∀ d ∈ l, fs.st_dev d = p := by
  induction l with
  | nil => intro p; simp [sameDeviceLoop]
  | cons d ds ih =>
    intro p
    simp only [sameDeviceLoop, List.forall_mem_cons]
    by_cases hd : fs.st_dev d = p
    · rw [hd]
      simp [ih p]
    · simp [hd]

/-- Started fresh, the device loop accepts exactly the lists whose
members all live on the first member's device. -/
theorem sameDeviceLoop_none (fs : DirFS) (d0 : String) (rest : List String) :
    sameDeviceLoop fs none (d0 :: rest) = true ↔
      ∀ d ∈ rest, fs.st_dev d = fs.st_dev d0 := by
  simp only [sameDeviceLoop]
  exact sameDeviceLoop_some fs rest (fs.st_dev d0)

/-- C5: validation returns ok = true together with exactly those input
paths that exist and are directories, kept in input order, precisely
when at least one such path survives and all surviving paths share one
device identifier; in every other case (zero survivors, or a device
mismatch) it returns ok = false with no paths. It is a pure function
of the filesystem facts: no deletion is performed. -/
theorem check_directories_spec (fs : DirFS) (directories : List String) :
    check_directories fs directories =
      (if (directories.filter fun d => fs.pathExists d && fs.isdir d) ≠ [] ∧
          ∀ a ∈ (directories.filter fun d => fs.pathExists d && fs.isdir d),
            ∀ b ∈ (directories.filter fun d => fs.pathExists d && fs.isdir d),
              fs.st_dev a = fs.st_dev b
       then (true, directories.filter fun d => fs.pathExists d && fs.isdir d)
       else (false, [])) := by
  simp only [check_directories]
  rcases hf : directories.filter (fun d => fs.pathExists d && fs.isdir d)
    with _ | ⟨d0, rest⟩
  · simp
  · have hchar : sameDeviceLoop fs none (d0 :: rest) = true ↔
        ∀ a ∈ d0 :: rest, ∀ b ∈ d0 :: rest, fs.st_dev a = fs.st_dev b := by
      rw [sameDeviceLoop_none]
      constructor
      · intro h a ha b hb
        have va : fs.st_dev a = fs.st_dev d0 := by
          rcases List.mem_cons.mp ha with rfl | ha'
          · rfl
          · exact h a ha'
        have vb : fs.st_dev b = fs.st_dev d0 := by
          rcases List.mem_cons.mp hb with rfl | hb'
          · rfl
          · exact h b hb'
        rw [va, vb]
      · intro h d hd
        exact h d (List.mem_cons_of_mem d0 hd) d0 (List.mem_cons_self d0 rest)
    by_cases hs : sameDeviceLoop fs none (d0 :: rest) = true
    · rw [if_neg (by simp : ¬(d0 :: rest).length = 0), if_pos hs,
        if_pos ⟨by simp, hchar.mp hs⟩]
    · have hcon : ¬((d0 :: rest) ≠ [] ∧ ∀ a ∈ d0 :: rest, ∀ b ∈ d0 :: rest,
          fs.st_dev a = fs.st_dev b) := by
        intro hc
        exact hs (hchar.mpr hc.2)
      rw [if_neg (by simp : ¬(d0 :: rest).length = 0), if_neg hs, if_neg hcon]

/-- No two entries of the list share a path. -/
def PathsNodup (l : List File) : Prop :=
  l.Pairwise fun a b => a.path ≠ b.path

/-- Adding to the set keeps paths pairwise distinct. -/
theorem setAdd_pathsNodup {s : List File} (h : PathsNodup s) (f : File) :
    PathsNodup (setAdd s f) := by
  unfold setAdd
  by_cases hc : s.any (fun g => fileEq g f) = true
  · rw [if_pos hc]
    exact h
  · rw [if_neg hc]
    rw [PathsNodup, List.pairwise_append]
    refine ⟨h, List.pairwise_singleton _ _, ?_⟩
    intro a ha b hb
    rw [List.mem_singleton] at hb
    subst hb
    intro hpath
    apply hc
    rw [List.any_eq_true]
    exact ⟨a, ha, by simp [fileEq, File.key, hpath]⟩

/-- A fold whose every step keeps paths distinct keeps paths distinct. -/
theorem foldl_pathsNodup {β : Type} (step : List File → β → List File)
    (hstep : ∀ acc b, PathsNodup acc → PathsNodup (step acc b))
    (l : List β) :
    ∀ init, PathsNodup init → PathsNodup (List.foldl step init l) := by
  induction l with
  | nil => intro init h; exact h
  | cons b bs ih =>
    intro init h
    rw [List.foldl_cons]
    exact ih _ (hstep init b h)

/-- Processing one directory listing keeps paths pairwise distinct. -/
theorem process_dir_pathsNodup (isfile : String → Bool)
    (getmtime : String → Int) (dirname : String) (filenames : List String)
    {s : List File} (h : PathsNodup s) :
    PathsNodup (process_dir isfile getmtime s dirname filenames) := by
  unfold process_dir
  refine foldl_pathsNodup _ ?_ filenames s h
  intro acc b hacc
  dsimp only
  split
  · exact setAdd_pathsNodup hacc _
  · exact hacc

/-- The scanned inventory never contains two entries with one path. -/
theorem scanFiles_pathsNodup (walk : String → List (String × List String))
    (isfile : String → Bool) (getmtime : String → Int)
    (directories : List String) :
    PathsNodup (scanFiles walk isfile getmtime directories) := by
  unfold scanFiles
  refine foldl_pathsNodup _ ?_ directories [] List.Pairwise.nil
  intro acc d hacc
  exact foldl_pathsNodup _
    (fun acc2 c hacc2 => process_dir_pathsNodup isfile getmtime c.1 c.2 hacc2)
    (walk d) acc hacc

/-- C7: every inventory handed to the reclamation loop — the sort of any
iteration order of the scanned set — contains no two entries with the
same path and is in non-decreasing order of modification time. -/
theorem inventory_nodup_and_sorted
    (walk : String → List (String × List String))
    (isfile : String → Bool) (getmtime : String → Int)
    (directories : List String) (iter : List File)
    (h : iter.Perm (scanFiles walk isfile getmtime directories)) :
    (find_files_sorted_by_mtime iter).Pairwise
      (fun a b => a.path ≠ b.path) ∧
    (find_files_sorted_by_mtime iter).Pairwise
      (fun a b => a.mtime ≤ b.mtime) := by
  constructor
  · have h0 : PathsNodup (scanFiles walk isfile getmtime directories) :=
      scanFiles_pathsNodup walk isfile getmtime directories
    have h1 : PathsNodup iter :=
      (h.pairwise_iff fun hab heq => hab heq.symm).mpr h0
    exact ((List.perm_insertionSort mtimeLE iter).pairwise_iff
      fun hab heq => hab heq.symm).mpr h1
  · exact List.sorted_insertionSort mtimeLE iter

/-- C7 witness: a concrete scan of one directory holding two files,
iterated in reversed order, yields a duplicate-free, mtime-sorted
inventory. -/
theorem inventory_nodup_and_sorted_witness :
    (find_files_sorted_by_mtime
        [File.mk "d/b" 1, File.mk "d/a" 2]).Pairwise
      (fun a b => a.path ≠ b.path) ∧
    (find_files_sorted_by_mtime
        [File.mk "d/b" 1, File.mk "d/a" 2]).Pairwise
      (fun a b => a.mtime ≤ b.mtime) :=
  inventory_nodup_and_sorted (fun d => [(d, ["a", "b"])]) (fun _ => true)
    (fun p => if p == "d/a" then 2 else 1) ["d"]
    [File.mk "d/b" 1, File.mk "d/a" 2] (by decide)

/-- When the fallible loop raises, the raising file failed to delete,
everything deleted after entry succeeded, and the inventory splits as
the deleted files, the failing file, then the untouched rest. -/
theorem cleanupLoopE_error (e : Env) (delOk : String → Bool) (thr : Int)
    (files : List File) :
    ∀ deleted D f,
      cleanupLoopE e delOk thr deleted files = Except.error (D, f) →
      delOk f.path = false ∧
      ∃ d₁ tl, D = deleted ++ d₁ ∧ (∀ g ∈ d₁, delOk g.path = true) ∧
        deleted ++ files = D ++ f :: tl := by
  induction files with
  | nil =>
    intro deleted D f h
    simp [cleanupLoopE] at h
  | cons f0 rest ih =>
    intro deleted D f h
    by_cases hc : (availAfter e deleted : Int) < thr
    · simp only [cleanupLoopE, if_pos hc] at h
      by_cases hd : delOk f0.path = true
      · rw [if_pos hd] at h
        obtain ⟨hfail, d₁, tl, hD, hall, hsplit⟩ := ih (deleted ++ [f0]) D f h
        refine ⟨hfail, f0 :: d₁, tl, ?_, ?_, ?_⟩
        · rw [hD]; simp
        · intro g hg
          rcases List.mem_cons.mp hg with rfl | hg'
          · exact hd
          · exact hall g hg'
        · rw [← hsplit]; simp
      · rw [if_neg hd] at h
        rw [Except.error.injEq, Prod.mk.injEq] at h
        obtain ⟨hD, hf⟩ := h
        subst hD; subst hf
        exact ⟨Bool.eq_false_iff.mpr (fun hcon => hd hcon), [], rest,
          by simp, by simp, by simp⟩
    · simp [cleanupLoopE, if_neg hc] at h

/-- C8: if a deletion fails during the reclamation loop, the failure
propagates and aborts the run uncaught: the result is the error (no
outcome, so the final report is never emitted), the failing file is
the next entry of the sorted inventory after the deleted prefix (no
further file is deleted), and the files deleted before the failure —
all of them successfully removed — stay deleted (no rollback). -/
theorem cleanup_delete_failure_aborts (e : Env) (delOk : String → Bool)
    (thr : Int) (iter : List File) (D : List File) (f : File)
    (h : cleanupE e delOk thr iter = Except.error (D, f)) :
    delOk f.path = false ∧
    (∀ g ∈ D, delOk g.path = true) ∧
    ∃ tl, find_files_sorted_by_mtime iter = D ++ f :: tl := by
  by_cases hfast : thr ≤ (e.availStart : Int)
  · rw [cleanupE, if_pos hfast] at h
    exact absurd h (by simp)
  · rw [cleanupE, if_neg hfast] at h
    split at h
    next r heq =>
      rw [Except.error.injEq] at h
      subst h
      obtain ⟨hfail, d₁, tl, hD1, hall, hsplit⟩ :=
        cleanupLoopE_error e delOk thr (find_files_sorted_by_mtime iter)
          [] D f heq
      rw [List.nil_append] at hD1 hsplit
      subst hD1
      exact ⟨hfail, hall, tl, hsplit⟩
    next deleted remaining heq =>
      split at h <;> simp at h

/-- C8 witness: with 0 MB free, a 5 MB threshold and only file a
deletable, the run deletes a, fails on b and aborts there: b stays, no
outcome is reported, a's deletion stands. -/
theorem cleanup_delete_failure_aborts_witness :
    ((File.mk "b" 2).path == "a") = false ∧
    (∀ g ∈ [File.mk "a" 1], (g.path == "a") = true) ∧
    ∃ tl, find_files_sorted_by_mtime [File.mk "a" 1, File.mk "b" 2]
      = [File.mk "a" 1] ++ File.mk "b" 2 :: tl :=
  cleanup_delete_failure_aborts ⟨0, fun _ => 1⟩ (fun p => p == "a") 5
    [File.mk "a" 1, File.mk "b" 2] [File.mk "a" 1] (File.mk "b" 2) rfl

/-- C9 counterexample: scanning one directory discovers d/p before d/q,
both with modification time 5; the Python set holding them is free to
iterate as d/q before d/p (a hash set's iteration order is a
permutation of its contents, unrelated to insertion order), and the
stable sort of that iteration sequence then emits d/q before d/p —
equal-mtime entries are not presented in discovery order. -/
theorem tie_break_not_discovery_order :
    scanFiles (fun d => [(d, ["p", "q"])]) (fun _ => true) (fun _ => 5) ["d"]
      = [File.mk "d/p" 5, File.mk "d/q" 5] ∧
    List.Perm [File.mk "d/q" 5, File.mk "d/p" 5]
      [File.mk "d/p" 5, File.mk "d/q" 5] ∧
    find_files_sorted_by_mtime [File.mk "d/q" 5, File.mk "d/p" 5]
      = [File.mk "d/q" 5, File.mk "d/p" 5] :=
  ⟨by decide, List.Perm.swap (File.mk "d/p" 5) (File.mk "d/q" 5) [],
    by decide⟩

/-- C9 amended: the sort is stable with respect to the sequence it is
given, so entries with equal modification times appear in the deletion
sequence in the order of the set's iteration sequence — which is
implementation-defined and need not be the discovery order; runs whose
iteration sequences coincide delete files in the same order. -/
theorem equal_mtime_keep_iteration_order (iter : List File) (a b : File)
    (hm : a.mtime = b.mtime) (h : List.Sublist [a, b] iter) :
    List.Sublist [a, b] (find_files_sorted_by_mtime iter) :=
  List.pair_sublist_insertionSort (le_of_eq hm) h

/-- C9 amended witness: two files with equal modification times handed
to the sort in a concrete order come out in that same order. -/
theorem equal_mtime_keep_iteration_order_witness :
    List.Sublist [File.mk "y" 5, File.mk "x" 5]
      (find_files_sorted_by_mtime [File.mk "y" 5, File.mk "x" 5]) :=
  equal_mtime_keep_iteration_order [File.mk "y" 5, File.mk "x" 5]
    (File.mk "y" 5) (File.mk "x" 5) rfl (List.Sublist.refl _)

/-- C10: File identity is the path alone — equality holds exactly on
equal paths, the modification time being ignored, and hashing follows
the path — so once the inventory holds an entry with some path, adding
a later encounter of that path (whatever modification time it then
carries) leaves the inventory unchanged: the first-recorded entry and
its modification time survive. -/
theorem file_identity_path_only (x y : File) (s : List File) (f g : File)
    (hg : g ∈ s) (hgf : g.path = f.path) :
    (fileEq x y = true ↔ x.path = y.path) ∧
    (x.path = y.path → fileHash x = fileHash y) ∧
    setAdd s f = s := by
  refine ⟨by simp [fileEq, File.key], ?_, ?_⟩
  · intro hp
    unfold fileHash File.key
    rw [hp]
  · unfold setAdd
    rw [if_pos]
    rw [List.any_eq_true]
    exact ⟨g, hg, by simp [fileEq, File.key, hgf]⟩

/-- C10 witness: with (p, mtime 1) already in the inventory, adding a
later encounter (p, mtime 2) changes nothing, and the two entries are
equal with equal hashes despite their different modification times. -/
theorem file_identity_path_only_witness :
    (fileEq (File.mk "p" 1) (File.mk "p" 2) = true ↔
      (File.mk "p" 1).path = (File.mk "p" 2).path) ∧
    ((File.mk "p" 1).path = (File.mk "p" 2).path →
      fileHash (File.mk "p" 1) = fileHash (File.mk "p" 2)) ∧
    setAdd [File.mk "p" 1] (File.mk "p" 2) = [File.mk "p" 1] :=
  file_identity_path_only (File.mk "p" 1) (File.mk "p" 2) [File.mk "p" 1]
    (File.mk "p" 2) (File.mk "p" 1) (by decide) (by decide)

end Cleanup
